import Mathlib

/-!
Verification of the Arizona extcon (jack detection) driver
`drivers/switch/switch-arizona.c` against its design specification.

The driver's state controller, measurement interpretation and interrupt
dispatch logic are embedded shallowly: each C function relevant to a claim
is translated into a pure Lean function over explicit state; side effects
(register writes, input events, switch reports, scheduled work) are
recorded as trace actions.  Register bit-field decoding constants come
from the driver's companion headers (`linux/mfd/arizona/registers.h`,
`linux/switch-arizona.h`), which are outside this repository; their
values follow the driver's documented field layout.
-/

namespace Arizona

/-! ## Constants from switch-arizona.c -/

def ARIZONA_MAX_MICD_RANGE : Nat := 8

def ARIZONA_ACCDET_MODE_MIC : Nat := 0
def ARIZONA_ACCDET_MODE_HPL : Nat := 1
def ARIZONA_ACCDET_MODE_HPR : Nat := 2
def ARIZONA_ACCDET_MODE_HPM : Nat := 4
def ARIZONA_ACCDET_MODE_ADC : Nat := 7
def ARIZONA_ACCDET_MODE_INVALID : Nat := 8

def ARIZONA_HPDET_MAX : Int := 10000

/-- EAGAIN errno; the driver returns -EAGAIN to signal a retry. -/
def EAGAIN : Int := 11

def EINVAL : Int := 22

/-! ## Detection state descriptors

The driver declares six static `struct arizona_jd_state` descriptors
(function-pointer tables).  They are compared by pointer identity, so we
model them as an inductive of identities; `custom` stands for a
platform-supplied `pdata.custom_jd` descriptor.  The `mode`, `timeout`
and `restart` fields are read off the static initializers in the
source. -/

inductive JdStateId where
  | hpdet_moisture
  | hpdet_left
  | hpdet_right
  | micd_button
  | micd_microphone
  | hpdet_acc_id
  | custom
  deriving DecidableEq, Repr

/-- The `.mode` field of each static state descriptor (the `custom`
descriptor is external; the driver never reads a fixed mode for it here,
we give it the invalid mode so that it matches no dispatch arm). -/
def jd_mode : JdStateId → Nat
  | .hpdet_moisture => ARIZONA_ACCDET_MODE_HPL
  | .hpdet_left => ARIZONA_ACCDET_MODE_HPL
  | .hpdet_right => ARIZONA_ACCDET_MODE_HPR
  | .micd_button => ARIZONA_ACCDET_MODE_MIC
  | .micd_microphone => ARIZONA_ACCDET_MODE_MIC
  | .hpdet_acc_id => ARIZONA_ACCDET_MODE_HPL
  | .custom => ARIZONA_ACCDET_MODE_INVALID

/-- Whether the descriptor has both a `.timeout_ms` and a `.timeout`
member (only `arizona_micd_microphone` does among the static tables);
`arizona_jds_start_timeout` only schedules work when both are set. -/
def jd_has_timeout : JdStateId → Bool
  | .micd_microphone => true
  | _ => false

/-- Whether the descriptor has a `.restart` member (only
`arizona_hpdet_acc_id` does). -/
def jd_has_restart : JdStateId → Bool
  | .hpdet_acc_id => true
  | _ => false

/-- `arizona_jds_get_mode`: the active state's mode, or the invalid
mode when no state is active. -/
def arizona_jds_get_mode : Option JdStateId → Nat
  | some s => jd_mode s
  | none => ARIZONA_ACCDET_MODE_INVALID

/-! ## arizona_jds_set_state -/

/-- Observable side effects of the state controller: invocations of the
old state's `stop` and the new state's `start` callbacks. -/
inductive JdsAction where
  | stop (s : JdStateId)
  | start (s : JdStateId)
  deriving DecidableEq, Repr

/-- `arizona_jds_set_state`, translated from the source.  `startRet`
gives the return value of each state's `start` callback (side effects of
`start`/`stop` are recorded in the trace).  Returns the new
`info->state`, the callback trace, and the function's return value. -/
def arizona_jds_set_state (startRet : JdStateId → Int)
    (state : Option JdStateId) (new_state : Option JdStateId) :
    Option JdStateId × List JdsAction × Int :=
  if new_state = state then
    (state, [], 0)
  else
    let stopTrace : List JdsAction :=
      match state with
      | some s => [.stop s]
      | none => []
    match new_state with
    | none => (none, stopTrace, 0)
    | some s =>
        let ret := startRet s
        if ret < 0 then
          (none, stopTrace ++ [.start s], ret)
        else
          (some s, stopTrace ++ [.start s], ret)

/-! ## Timeout work and IRQ handler dispatch (spurious-event handling) -/

/-- `arizona_jds_timeout_work` body: it invokes
`info->state->timeout(info)` and then re-arms the timeout, with no check
that a state is active or that the state has a `timeout` callback.
`none` models the null-pointer dereference that occurs when
`info->state` (or its `timeout` member) is null; `some s` records that
state `s`'s timeout handler ran followed by `arizona_jds_start_timeout`. -/
def arizona_jds_timeout_work (state : Option JdStateId) : Option JdStateId :=
  match state with
  | none => none
  | some s => if jd_has_timeout s then some s else none

/-- Outcome of the HPDET/MICDET IRQ bottom halves as far as state
dispatch is concerned. -/
inductive IrqDispatch where
  | spurious
  | retry
  | dispatched (val : Int)
  deriving DecidableEq, Repr

/-- The mode-guard and dispatch skeleton of `arizona_hpdet_handler`:
if the active mode is not one of HPL/HPR/HPM the IRQ is spurious (warn,
re-arm timeout, `IRQ_NONE`); otherwise the fresh reading `readRes` is
dispatched unless it is `-EAGAIN`. -/
def arizona_hpdet_handler_dispatch (state : Option JdStateId)
    (readRes : Int) : IrqDispatch :=
  let m := arizona_jds_get_mode state
  if m = ARIZONA_ACCDET_MODE_HPL ∨ m = ARIZONA_ACCDET_MODE_HPR ∨
      m = ARIZONA_ACCDET_MODE_HPM then
    if readRes = -EAGAIN then .retry else .dispatched readRes
  else
    .spurious

/-- The mode-guard and dispatch skeleton of `arizona_micd_handler`:
spurious unless the active mode is MIC or ADC. -/
def arizona_micd_handler_dispatch (state : Option JdStateId)
    (readRes : Int) : IrqDispatch :=
  let m := arizona_jds_get_mode state
  if m = ARIZONA_ACCDET_MODE_MIC ∨ m = ARIZONA_ACCDET_MODE_ADC then
    if readRes = -EAGAIN then .retry else .dispatched readRes
  else
    .spurious

/-! ## arizona_hpdet_read -/

/-- External series resistor compensation at the tail of
`arizona_hpdet_read`: when `pdata.hpdet_ext_res` is configured (nonzero)
and strictly smaller than the measured value it is subtracted; when it
is greater than or equal the driver logs an error and keeps the value.
The boolean records whether the error was logged. -/
def hpdet_ext_res_compensate (extRes reading : Int) : Int × Bool :=
  if extRes ≠ 0 then
    if reading ≤ extRes then
      (reading, true)
    else
      (reading - extRes, false)
  else
    (reading, false)

structure HpdetBRange where
  threshold : Nat
  factor_a : Nat
  factor_b : Nat
  deriving DecidableEq, Repr

/-- `arizona_hpdet_b_ranges` (hpdet_ip = 1, three ranges). -/
def arizona_hpdet_b_ranges : List HpdetBRange :=
  [⟨100, 5528, 362464⟩, ⟨169, 11084, 6186851⟩, ⟨169, 11065, 65460395⟩]

def ARIZONA_HPDET_B_RANGE_MAX : Nat := 0x3fb

structure HpdetCRange where
  rmin : Nat
  rmax : Nat
  deriving DecidableEq, Repr

/-- `arizona_hpdet_c_ranges` (hpdet_ip = 2, four ranges). -/
def arizona_hpdet_c_ranges : List HpdetCRange :=
  [⟨0, 30⟩, ⟨8, 100⟩, ⟨100, 1000⟩, ⟨1000, 10000⟩]

/-- Result of one `arizona_hpdet_read` invocation: `-EAGAIN` (retry) or
a final impedance value. -/
inductive HpdetRes where
  | again
  | ok (ohms : Int)
  deriving DecidableEq, Repr

/-- `arizona_hpdet_read`, translated from the source.  `done` is the
completion bit of HEADPHONE_DETECT_2 (`ARIZONA_HP_DONE` for ip 0,
`ARIZONA_HP_DONE_B` otherwise); `lvl` is the masked level field (for
ip 1 the raw `ARIZONA_HP_DACVAL` reading); `range` is the
`HP_IMPEDANCE_RANGE` register field.  Returns the range field after the
call together with the outcome.  Every arm of the source's switch first
tests the completion bit and returns `-EAGAIN` when it is clear, so that
common test is hoisted here.  An unknown `hpdet_ip` revision logs a
warning and falls through to the ip = 2 branch, as in the source. -/
def arizona_hpdet_read (ip extRes : Nat) (done : Bool) (lvl range : Nat) :
    Nat × HpdetRes :=
  match done, ip with
  | false, _ => (range, .again)
  | true, 0 => (range, .ok (hpdet_ext_res_compensate extRes lvl).1)
  | true, 1 =>
      let r := arizona_hpdet_b_ranges.getD range ⟨0, 0, 0⟩
      if range < arizona_hpdet_b_ranges.length - 1 ∧
          (lvl < r.threshold ∨ ARIZONA_HPDET_B_RANGE_MAX ≤ lvl) then
        (range + 1, .again)
      else if lvl < r.threshold ∨ ARIZONA_HPDET_B_RANGE_MAX ≤ lvl then
        (range, .ok ARIZONA_HPDET_MAX)
      else
        (range,
          .ok (hpdet_ext_res_compensate extRes
            ((r.factor_b / (lvl * 100 - r.factor_a) : Nat))).1)
  | true, _ =>
      let val := lvl / 2
      let r := arizona_hpdet_c_ranges.getD range ⟨0, 0⟩
      if range < arizona_hpdet_c_ranges.length - 1 ∧ r.rmax ≤ val then
        (range + 1, .again)
      else
        let val := if range ≠ 0 ∧ val < r.rmin then r.rmin else val
        (range, .ok (hpdet_ext_res_compensate extRes val).1)

/-- Number of measurement ranges of each HPDET IP revision (the
unknown-revision fallthrough shares the four ranges of ip 2). -/
def hpdet_range_count (ip : Nat) : Nat :=
  match ip with
  | 0 => 1
  | 1 => arizona_hpdet_b_ranges.length
  | _ => arizona_hpdet_c_ranges.length

/-- A detection session: the IRQ re-invokes `arizona_hpdet_read` with
the range field persisted in the hardware register until a final value
is produced.  Counts the retries caused by out-of-bounds readings
(i.e. `-EAGAIN` results whose completion bit was set, as opposed to
not-yet-settled retries). -/
def hpdet_oob_retries (ip extRes : Nat) : Nat → List (Bool × Nat) → Nat
  | _, [] => 0
  | range, (d, l) :: rest =>
      let out := arizona_hpdet_read ip extRes d l range
      match out.2 with
      | .again => (if d then 1 else 0) + hpdet_oob_retries ip extRes out.1 rest
      | .ok _ => 0

/-! ## MICD register fields and configuration tables

Bit-field constants of `ARIZONA_MIC_DETECT_3` follow the layout in the
driver's companion header (`linux/mfd/arizona/registers.h`, outside this
repository): level bit `i` sits at position `i + ARIZONA_MICD_LVL_SHIFT`
and the composite masks from `linux/switch-arizona.h` are unions of
those bits. -/

def ARIZONA_MICD_STS : Nat := 0x2
def ARIZONA_MICD_LVL_SHIFT : Nat := 2
def ARIZONA_MICD_LVL_MASK : Nat := 0x7FC
def ARIZONA_MICD_LVL_8 : Nat := 0x400
def MICD_LVL_1_TO_7 : Nat := 0x3F8
def MICD_LVL_0_TO_7 : Nat := 0x3FC
def MICD_LVL_0_TO_8 : Nat := 0x7FC

/-- Input key codes BTN_0..BTN_5 (from `linux/input.h`). -/
def BTN_0 : Nat := 0x100
def BTN_1 : Nat := 0x101
def BTN_2 : Nat := 0x102
def BTN_3 : Nat := 0x103
def BTN_4 : Nat := 0x104
def BTN_5 : Nat := 0x105

/-- `struct arizona_micd_range`: impedance bucket upper bound and the
input key code it maps to. -/
structure MicdRange where
  max : Nat
  key : Nat
  deriving DecidableEq, Repr

/-- `micd_default_ranges`. -/
def micd_default_ranges : List MicdRange :=
  [⟨11, BTN_0⟩, ⟨28, BTN_1⟩, ⟨54, BTN_2⟩,
   ⟨100, BTN_3⟩, ⟨186, BTN_4⟩, ⟨430, BTN_5⟩]

def ARIZONA_NUM_MICD_BUTTON_LEVELS : Nat := 64

/-- `arizona_micd_levels`: the fixed monotonic impedance lookup table
(65 entries; only the first 64 are valid button thresholds). -/
def arizona_micd_levels : List Nat :=
  [3, 6, 8, 11, 13, 16, 18, 21, 23, 26, 28, 31, 34, 36, 39, 41, 44, 46,
   49, 52, 54, 57, 60, 62, 65, 67, 70, 73, 75, 78, 81, 83, 89, 94, 100,
   105, 111, 116, 122, 127, 139, 150, 161, 173, 186, 196, 209, 220, 245,
   270, 295, 321, 348, 375, 402, 430, 489, 550, 614, 681, 752, 903, 1071,
   1257, 30000]

/-- The prefix of the lookup table valid for button thresholds. -/
def micd_levels64 : List Nat :=
  arizona_micd_levels.take ARIZONA_NUM_MICD_BUTTON_LEVELS

/-- The probe's per-range level search: the first index `j` below
`ARIZONA_NUM_MICD_BUTTON_LEVELS` with `arizona_micd_levels[j] >= max`,
or 64 when the loop runs off the end (the unsupported-level error). -/
def micd_level_index (m : Nat) : Nat :=
  micd_levels64.findIdx (fun l => m ≤ l)

/-- The probe's sortedness loop over `micd_ranges`: fails when some
adjacent pair decreases. -/
def micd_ranges_sorted_check : List MicdRange → Bool
  | [] => true
  | [_] => true
  | a :: b :: rest =>
      decide (a.max ≤ b.max) && micd_ranges_sorted_check (b :: rest)

/-- The MICD-range validation section of `arizona_extcon_probe`
(lines 1967-2019): selects the platform table when one is given (else
the defaults), logs — but does not fail on — a table with more than
`ARIZONA_MAX_MICD_RANGE` entries, fails with `-EINVAL` on an unsorted
table, and fails with `-EINVAL` when a range maximum exceeds every
valid button level.  Returns (too-many-ranges error logged, outcome). -/
def arizona_extcon_probe_validate (pdata_ranges : List MicdRange) :
    Bool × Except Int Unit :=
  let ranges :=
    if pdata_ranges.length ≠ 0 then pdata_ranges else micd_default_ranges
  let tooMany := decide (ARIZONA_MAX_MICD_RANGE < pdata_ranges.length)
  if micd_ranges_sorted_check ranges then
    if ranges.all
        (fun r => micd_level_index r.max < ARIZONA_NUM_MICD_BUTTON_LEVELS) then
      (tooMany, .ok ())
    else
      (tooMany, .error (-EINVAL))
  else
    (tooMany, .error (-EINVAL))

/-- A sorted nine-entry platform table: one more than
`ARIZONA_MAX_MICD_RANGE` allows. -/
def micd_nine_ranges : List MicdRange :=
  [⟨1, 0x100⟩, ⟨2, 0x101⟩, ⟨3, 0x102⟩, ⟨4, 0x103⟩, ⟨5, 0x104⟩,
   ⟨6, 0x105⟩, ⟨7, 0x106⟩, ⟨8, 0x107⟩, ⟨9, 0x108⟩]

/-! ## arizona_micd_button_reading -/

/-- C library `ffs` on a 32-bit int: one-based index of the least
significant set bit, 0 when no bit is set. -/
def ffs (n : Nat) : Nat :=
  if n = 0 then 0
  else ((List.range 32).findIdx fun i => n.testBit i) + 1

/-- Input-subsystem events emitted through `input_report_key` and
`input_sync`. -/
inductive KeyEvent where
  | report (key : Nat) (pressed : Bool)
  | sync
  deriving DecidableEq, Repr

/-- `arizona_micd_button_reading`, translated from the source: negative
readings are propagated untouched; a reading with a level bit in 0..7
releases every configured key and then presses the key of the first set
level bit when it indexes a configured range (else it only warns); any
other reading is a button release — every configured key is released. -/
def arizona_micd_button_reading (ranges : List MicdRange) (val : Int) :
    Int × List KeyEvent :=
  if val < 0 then (val, [])
  else
    let v := val.toNat
    if v &&& MICD_LVL_0_TO_7 ≠ 0 then
      let lvl := (v &&& ARIZONA_MICD_LVL_MASK) >>> ARIZONA_MICD_LVL_SHIFT
      let releases := ranges.map fun r => KeyEvent.report r.key false
      if lvl ≠ 0 ∧ ffs lvl - 1 < ranges.length then
        (0, releases ++
          [.report (ranges.getD (ffs lvl - 1) ⟨0, 0⟩).key true, .sync])
      else
        (0, releases)
    else
      (0, (ranges.map fun r => KeyEvent.report r.key false) ++ [.sync])

/-- Replay of input key events over a pressed-state assignment. -/
def apply_key_events (p : Nat → Bool) : List KeyEvent → (Nat → Bool)
  | [] => p
  | .report k b :: rest =>
      apply_key_events (fun k2 => if k2 = k then b else p k2) rest
  | .sync :: rest => apply_key_events p rest

/-- Modelled from the spec: the thresholds the probe programs into the
eight `MICD_LVL_SEL` slots (missing from src — the comparator silicon
and `arizona_micd_set_level`'s register bank are external).  Slot `i`
below the configured count holds the first lookup-table level at or
above `ranges[i].max` (exactly the probe's loop); every remaining slot
is set to level `0x3f`, the largest valid button level. -/
def micd_button_thresholds (ranges : List MicdRange) : List Nat :=
  (ranges.map fun r => micd_levels64.getD (micd_level_index r.max) 0) ++
  List.replicate (ARIZONA_MAX_MICD_RANGE - ranges.length)
    (micd_levels64.getD 0x3f 0)

/-- Modelled from the spec: the MICD comparator raises the level bit of
the impedance's bucket — the first programmed slot whose threshold is
at or above the measured impedance — and `MICD_LVL_8` when the
impedance exceeds every slot threshold, together with the valid-
measurement status bit. -/
def micd_hw_slot (ranges : List MicdRange) (z : Nat) : Nat :=
  (micd_button_thresholds ranges).findIdx (fun t => z ≤ t)

/-- Modelled from the spec: the `ARIZONA_MIC_DETECT_3` word produced by
the comparator for impedance `z` (slot 8, i.e. beyond every threshold,
yields the `MICD_LVL_8` bit). -/
def micd_hw_reading (ranges : List MicdRange) (z : Nat) : Nat :=
  ARIZONA_MICD_STS |||
    ((1 <<< micd_hw_slot ranges z) <<< ARIZONA_MICD_LVL_SHIFT)

/-! ## arizona_micd_mic_reading -/

/-- The configuration consulted by `arizona_micd_mic_reading`. -/
structure MicdConfigInfo where
  micd_num_modes : Nat
  micd_open_circuit_declare : Bool
  hpdet_channel : Bool
  deriving DecidableEq, Repr

/-- The mutable fields of `arizona_extcon_info` touched by
`arizona_micd_mic_reading`. -/
structure MicDetectState where
  micd_mode : Nat
  jack_flips : Nat
  mic : Bool
  deriving DecidableEq, Repr

/-- Outcome of one microphone-classification reading: a propagated
error, a polarity flip (stay in the microphone state), or the
transition into the given headphone-detect state. -/
inductive MicReadingOutcome where
  | err (e : Int)
  | flip
  | done (next : JdStateId)
  deriving DecidableEq, Repr

/-- `arizona_extcon_set_mode`'s effect on `info->micd_mode`: the mode
is reduced modulo `micd_num_modes` before being stored. -/
def arizona_extcon_set_mode (num mode : Nat) : Nat :=
  mode % num

/-- `arizona_micd_mic_reading`, translated from the source.  The
`done` outcome stands for the `done:` label: the controller moves to
`arizona_hpdet_right` or `arizona_hpdet_left` according to
`pdata.hpdet_channel`. -/
def arizona_micd_mic_reading (cfg : MicdConfigInfo) (st : MicDetectState)
    (val : Int) : MicDetectState × MicReadingOutcome :=
  if val < 0 then (st, .err val)
  else
    let v := val.toNat
    let next : JdStateId :=
      if cfg.hpdet_channel then .hpdet_right else .hpdet_left
    if v &&& ARIZONA_MICD_STS = 0 then
      ({ st with mic := cfg.micd_open_circuit_declare }, .done next)
    else if v &&& ARIZONA_MICD_LVL_8 ≠ 0 then
      ({ st with mic := true }, .done next)
    else if v &&& MICD_LVL_1_TO_7 ≠ 0 then
      if cfg.micd_num_modes * 10 ≤ st.jack_flips then
        (st, .done next)
      else
        let m := st.micd_mode + 1
        let m := if m = cfg.micd_num_modes then 0 else m
        ({ st with
            micd_mode := arizona_extcon_set_mode cfg.micd_num_modes m,
            jack_flips := st.jack_flips + 1 }, .flip)
    else
      (st, .done next)

/-- Number of polarity flips over a sequence of readings dispatched to
the microphone state until it hands off (errors leave the state
unchanged and the session continues). -/
def micd_mic_flip_count (cfg : MicdConfigInfo) :
    MicDetectState → List Int → Nat
  | _, [] => 0
  | st, v :: rest =>
      let out := arizona_micd_mic_reading cfg st v
      match out.2 with
      | .flip => 1 + micd_mic_flip_count cfg out.1 rest
      | .err _ => micd_mic_flip_count cfg out.1 rest
      | .done _ => 0

/-! ## arizona_jackdet -/

/-- Jack-presence status bits of `ARIZONA_AOD_IRQ_RAW_STATUS` (values
per the companion register header, outside this repository). -/
def ARIZONA_JD1_STS : Nat := 0x1
def ARIZONA_MICD_CLAMP_STS : Nat := 0x8

/-- `enum headset_state` reported to the switch-class device. -/
def BIT_NO_HEADSET : Nat := 0
def BIT_HEADSET : Nat := 1
def BIT_HEADSET_NO_MIC : Nat := 2

/-- `ARIZONA_HP_Z_OPEN` (companion header): the distinguished large
open-circuit impedance sentinel. -/
def ARIZONA_HP_Z_OPEN : Nat := 0x7fffffff

/-- Chip families distinguished by `arizona->type` in the handler. -/
inductive ChipType where
  | WM5102
  | WM8280
  | WM5110
  | WM8998
  | WM1814
  | otherChip
  deriving DecidableEq, Repr

/-- The platform-data fields consulted by `arizona_jackdet` (pointers
and callbacks reduced to presence flags). -/
structure JackdetPdata where
  jd_gpio5 : Bool
  jd_invert : Bool
  hpdet_acc_id : Bool
  custom_jd : Bool
  hpdet_moisture_imp : Nat
  has_hpdet_cb : Bool
  has_micd_cb : Bool
  jd_wake_time : Nat
  deriving DecidableEq, Repr

/-- The mutable driver state touched by `arizona_jackdet`
(`arizona->hp_impedance` folded in alongside the `arizona_extcon_info`
fields). -/
structure ExtconInfo where
  last_jackdet : Nat
  num_hpdet_res : Nat
  hpdet_res : List Nat
  mic : Bool
  hpdet_retried : Bool
  jack_flips : Nat
  hp_impedance : Nat
  state : Option JdStateId
  deriving DecidableEq, Repr

/-- Side effects of the jack-detect handler. -/
inductive JdAction where
  | scheduleHpdetWork
  | startStateTimeout
  | stopState (s : JdStateId)
  | startState (s : JdStateId)
  | reportSwitch (n : Nat)
  | releaseAllKeys
  | sync
  | setJackDebounce (enabled : Bool)
  | tuneHeadphone (imp : Nat)
  | hpdetCb (imp : Nat)
  | micdCb (present : Bool)
  | clearTrigSts
  | wakeEvent
  deriving DecidableEq, Repr

/-- `arizona_jds_start_timeout`: schedules the state timeout only when
a state is active and it declares both `timeout_ms` and `timeout`. -/
def arizona_jds_start_timeout_actions : Option JdStateId → List JdAction
  | some s => if jd_has_timeout s then [.startStateTimeout] else []
  | none => []

def jds_actions_to_jd (tr : List JdsAction) : List JdAction :=
  tr.map fun a =>
    match a with
    | .stop s => .stopState s
    | .start s => .startState s

/-- The presence mask selected from the wiring configuration. -/
def jackdet_mask (p : JackdetPdata) : Nat :=
  if p.jd_gpio5 then ARIZONA_MICD_CLAMP_STS else ARIZONA_JD1_STS

/-- The masked bit pattern meaning "jack present". -/
def jackdet_present (p : JackdetPdata) : Nat :=
  if p.jd_gpio5 then
    (if p.jd_invert then ARIZONA_MICD_CLAMP_STS else 0)
  else
    (if p.jd_invert then 0 else ARIZONA_JD1_STS)

/-- `arizona_jackdet`, translated from the source.  `readOk` is whether
the `ARIZONA_AOD_IRQ_RAW_STATUS` register read succeeded and `rawVal`
its value; `cancelled_hp`/`cancelled_state` are the results of the two
cancellations performed on entry.  A failed read aborts with no effect;
a masked value identical to `last_jackdet` suppresses the event and
merely re-arms whatever was cancelled; otherwise the new value is
committed and the insertion or removal path runs. -/
def arizona_jackdet (p : JackdetPdata) (chip : ChipType)
    (startRet : JdStateId → Int) (info : ExtconInfo) (readOk : Bool)
    (rawVal : Nat) (cancelled_hp cancelled_state : Bool) :
    ExtconInfo × List JdAction :=
  match readOk with
  | false => (info, [])
  | true =>
    let v := rawVal &&& jackdet_mask p
    if v = info.last_jackdet then
      (info,
        (if cancelled_hp then [JdAction.scheduleHpdetWork] else []) ++
        (if cancelled_state then
          arizona_jds_start_timeout_actions info.state else []) ++
        [.clearTrigSts])
    else
      let info1 := { info with last_jackdet := v }
      if v = jackdet_present p then
        let wake :=
          if p.jd_wake_time ≠ 0 then [JdAction.wakeEvent] else []
        if !p.hpdet_acc_id then
          let info2 := { info1 with mic := false, jack_flips := 0 }
          let newState : JdStateId :=
            if p.custom_jd then .custom
            else if p.hpdet_moisture_imp ≠ 0 then .hpdet_moisture
            else .micd_microphone
          let res := arizona_jds_set_state startRet info2.state (some newState)
          let info3 := { info2 with state := res.1 }
          (info3,
            wake ++ jds_actions_to_jd res.2.1 ++
            arizona_jds_start_timeout_actions info3.state ++
            [.setJackDebounce false, .clearTrigSts])
        else
          (info1,
            wake ++ [.scheduleHpdetWork, .setJackDebounce false,
              .clearTrigSts])
      else
        let info2 := { info1 with
          num_hpdet_res := 0
          hpdet_res := [0, 0, 0]
          mic := false
          hpdet_retried := false
          hp_impedance := 0 }
        let res := arizona_jds_set_state startRet info2.state none
        let info3 := { info2 with state := res.1 }
        (info3,
          jds_actions_to_jd res.2.1 ++
          [.releaseAllKeys, .sync, .reportSwitch BIT_NO_HEADSET,
            .setJackDebounce true] ++
          (match chip with
            | .WM5110 => [JdAction.tuneHeadphone ARIZONA_HP_Z_OPEN]
            | .WM1814 => [JdAction.tuneHeadphone ARIZONA_HP_Z_OPEN]
            | _ => []) ++
          (if p.has_hpdet_cb then [JdAction.hpdetCb ARIZONA_HP_Z_OPEN]
            else []) ++
          (if p.has_micd_cb then [JdAction.micdCb false] else []) ++
          [.clearTrigSts])

end Arizona

namespace Arizona

/-! ## Claims C1 and C2 -/

/-- Claim C1: `arizona_jds_set_state` is a no-op (no stop, no start)
when the new state equals the active one; otherwise it stops the old
active state if there is one, assigns the new state, starts it when one
is given, and on a negative `start` return reverts the active state to
none and returns that error. -/
theorem claim1_set_state (startRet : JdStateId → Int)
    (st : Option JdStateId) (new : Option JdStateId) :
    (new = st → arizona_jds_set_state startRet st new = (st, [], 0)) ∧
    (new ≠ st →
      (∀ s, st = some s →
        (arizona_jds_set_state startRet st new).2.1.head? = some (.stop s)) ∧
      (st = none →
        ∀ a ∈ (arizona_jds_set_state startRet st new).2.1,
          ∀ s, a ≠ JdsAction.stop s) ∧
      (∀ s, new = some s →
        JdsAction.start s ∈ (arizona_jds_set_state startRet st new).2.1 ∧
        (startRet s < 0 →
          arizona_jds_set_state startRet st new =
            (none, (arizona_jds_set_state startRet st new).2.1, startRet s)) ∧
        (0 ≤ startRet s →
          arizona_jds_set_state startRet st new =
            (some s, (arizona_jds_set_state startRet st new).2.1, startRet s))) ∧
      (new = none → arizona_jds_set_state startRet st new =
        (none, (arizona_jds_set_state startRet st new).2.1, 0))) := by
  constructor
  · intro h
    simp [arizona_jds_set_state, h]
  · intro hne
    refine ⟨?_, ?_, ?_, ?_⟩
    · intro s hs
      subst hs
      simp only [arizona_jds_set_state, if_neg hne]
      cases new with
      | none => simp
      | some t =>
          by_cases h : startRet t < 0 <;> simp [h]
    · intro hnone a ha s
      subst hnone
      simp only [arizona_jds_set_state, if_neg hne] at ha
      cases new with
      | none => simp at ha
      | some t =>
          by_cases h : startRet t < 0 <;> simp [h] at ha <;> simp [ha]
    · intro s hs
      subst hs
      simp only [arizona_jds_set_state, if_neg hne]
      by_cases h : startRet s < 0
      · cases st with
        | none => simp [h]
        | some t => simp [h, not_le.mpr h]
      · have h' : 0 ≤ startRet s := not_lt.mp h
        cases st with
        | none => simp [h, h']
        | some t => simp [h, h']
    · intro hnone
      subst hnone
      simp [arizona_jds_set_state, if_neg hne]

/-- Witness for C1: transitioning from the microphone state to
`hpdet_left` (start succeeding) stops the old state, starts the new one
and leaves it active. -/
theorem claim1_set_state_witness :
    JdsAction.start JdStateId.hpdet_left ∈
      (arizona_jds_set_state (fun _ => 0)
        (some .micd_microphone) (some .hpdet_left)).2.1 ∧
    arizona_jds_set_state (fun _ => 0)
        (some .micd_microphone) (some .hpdet_left) =
      (some .hpdet_left,
        (arizona_jds_set_state (fun _ => 0)
          (some .micd_microphone) (some .hpdet_left)).2.1, 0) := by
  have h := (claim1_set_state (fun _ => 0)
      (some .micd_microphone) (some .hpdet_left)).2 (by decide)
  have h3 := h.2.2.1 JdStateId.hpdet_left rfl
  exact ⟨h3.1, h3.2.2 (by decide)⟩

/-- Counterexample to C2 as stated: when the state-timeout work fires
with no active state, the body `info->state->timeout(info)` dereferences
the null state pointer (modelled by `none`) instead of logging and
ignoring the event. -/
theorem claim2_counterexample :
    arizona_jds_timeout_work none = none ∧
    ∀ s, arizona_jds_timeout_work none ≠ some s := by
  exact ⟨rfl, fun s h => Option.noConfusion h⟩

/-- Claim C2 (amended): a reading callback (the HPDET or MICDET IRQ
bottom half) that fires with no active state is treated as a spurious
event — the invalid mode matches no dispatch arm, the event is logged
and ignored, and the missing state is never dereferenced; the
state-timeout work, by contrast, dereferences the active state without
a null check and so is safe only because it is never left pending
without an active state owning a timeout. -/
theorem claim2_spurious_dispatch :
    (∀ readRes : Int,
      arizona_hpdet_handler_dispatch none readRes = .spurious) ∧
    (∀ readRes : Int,
      arizona_micd_handler_dispatch none readRes = .spurious) ∧
    arizona_jds_timeout_work none = none := by
  refine ⟨?_, ?_, rfl⟩
  · intro r
    simp [arizona_hpdet_handler_dispatch, arizona_jds_get_mode,
      ARIZONA_ACCDET_MODE_INVALID, ARIZONA_ACCDET_MODE_HPL,
      ARIZONA_ACCDET_MODE_HPR, ARIZONA_ACCDET_MODE_HPM]
  · intro r
    simp [arizona_micd_handler_dispatch, arizona_jds_get_mode,
      ARIZONA_ACCDET_MODE_INVALID, ARIZONA_ACCDET_MODE_MIC,
      ARIZONA_ACCDET_MODE_ADC]

/-! ## Claims C4 and C9 -/

/-- A not-yet-settled reading (completion bit clear) retries without
touching the range register, for every IP revision. -/
theorem hpdet_read_not_done (ip extRes lvl range : Nat) :
    arizona_hpdet_read ip extRes false lvl range = (range, .again) := by
  cases ip with
  | zero => rfl
  | succ n =>
      cases n with
      | zero => rfl
      | succ m => rfl

/-- An out-of-bounds retry (completion bit set, `-EAGAIN` returned)
advances the range register by exactly one and only occurs strictly
below the top range. -/
theorem hpdet_read_oob_step (ip extRes lvl range : Nat)
    (h : (arizona_hpdet_read ip extRes true lvl range).2 = .again) :
    (arizona_hpdet_read ip extRes true lvl range).1 = range + 1 ∧
      range + 1 < hpdet_range_count ip := by
  cases ip with
  | zero => simp [arizona_hpdet_read] at h
  | succ n =>
      cases n with
      | zero =>
          simp only [arizona_hpdet_read] at h ⊢
          split at h
          · rename_i hc
            rw [if_pos hc]
            refine ⟨rfl, ?_⟩
            have hlt := hc.1
            simp only [arizona_hpdet_b_ranges, List.length_cons,
              List.length_nil] at hlt
            simp only [hpdet_range_count, arizona_hpdet_b_ranges,
              List.length_cons, List.length_nil]
            omega
          · rename_i hc
            split at h
            · simp at h
            · simp at h
      | succ m =>
          simp only [arizona_hpdet_read] at h ⊢
          split at h
          · rename_i hc
            rw [if_pos hc]
            refine ⟨rfl, ?_⟩
            have hlt := hc.1
            simp only [arizona_hpdet_c_ranges, List.length_cons,
              List.length_nil] at hlt
            simp only [hpdet_range_count, arizona_hpdet_c_ranges,
              List.length_cons, List.length_nil]
            omega
          · simp at h

/-- The range register field never decreases across a read. -/
theorem hpdet_read_range_le (ip extRes : Nat) (done : Bool)
    (lvl range : Nat) :
    range ≤ (arizona_hpdet_read ip extRes done lvl range).1 := by
  cases done with
  | false => rw [hpdet_read_not_done]
  | true =>
      cases ip with
      | zero => simp [arizona_hpdet_read]
      | succ n =>
          cases n with
          | zero =>
              simp only [arizona_hpdet_read]
              split
              · simp
              · split <;> simp
          | succ m =>
              simp only [arizona_hpdet_read]
              split
              · simp
              · simp

theorem hpdet_range_count_pos (ip : Nat) : 0 < hpdet_range_count ip := by
  cases ip with
  | zero => decide
  | succ n =>
      cases n with
      | zero => decide
      | succ m => simp [hpdet_range_count, arizona_hpdet_c_ranges]

/-- In any session the out-of-bounds retries from a given starting range
are bounded by the ranges remaining above it. -/
theorem hpdet_oob_retries_le_aux (ip extRes : Nat)
    (inputs : List (Bool × Nat)) :
    ∀ range, range < hpdet_range_count ip →
      hpdet_oob_retries ip extRes range inputs ≤
        hpdet_range_count ip - 1 - range := by
  induction inputs with
  | nil => intro r _; simp [hpdet_oob_retries]
  | cons p rest ih =>
      intro r hr
      obtain ⟨d, l⟩ := p
      cases d with
      | false =>
          simp only [hpdet_oob_retries, hpdet_read_not_done]
          simpa using ih r hr
      | true =>
          cases hres : (arizona_hpdet_read ip extRes true l r).2 with
          | ok v => simp [hpdet_oob_retries, hres]
          | again =>
              obtain ⟨h1, h2⟩ := hpdet_read_oob_step ip extRes l r hres
              simp only [hpdet_oob_retries, hres, h1, if_pos]
              have := ih (r + 1) h2
              omega

/-- Counterexample to C4 as stated: at the last (fourth) range of the
ip = 2 variant, a measurement of 12000 ohms (raw half-ohm value 24000,
above the range's 10000-ohm upper boundary) is returned unclamped as
the final value — it is not clamped to the range boundary. -/
theorem claim4_counterexample :
    arizona_hpdet_read 2 0 true 24000 3 = (3, .ok 12000) ∧
    ¬((12000 : Int) ≤ 10000) := by
  constructor
  · rfl
  · decide

/-- Claim C4 (amended): across a detection session the range register
never decreases and the retries caused by out-of-bounds readings are
bounded by the number of ranges; at the last range a completed reading
is always final (never retried), where the ip = 2 variant clamps values
below the range minimum up to that minimum and the ip = 1 variant
reports the 10000-ohm top-of-range value for out-of-range readings,
while ip = 2 readings above the last range's maximum are returned
unclamped. -/
theorem claim4_range_stepping :
    (∀ ip extRes : Nat, ∀ done : Bool, ∀ lvl range : Nat,
      range ≤ (arizona_hpdet_read ip extRes done lvl range).1) ∧
    (∀ ip extRes : Nat, ∀ inputs : List (Bool × Nat),
      hpdet_oob_retries ip extRes 0 inputs ≤ hpdet_range_count ip) ∧
    (∀ extRes lvl : Nat,
      (arizona_hpdet_read 1 extRes true lvl 2).2 ≠ .again ∧
      (arizona_hpdet_read 2 extRes true lvl 3).2 ≠ .again) ∧
    (∀ extRes lvl : Nat, lvl / 2 < 1000 →
      arizona_hpdet_read 2 extRes true lvl 3 =
        (3, .ok (hpdet_ext_res_compensate extRes 1000).1)) ∧
    (∀ extRes lvl : Nat,
      (lvl < 169 ∨ ARIZONA_HPDET_B_RANGE_MAX ≤ lvl) →
      arizona_hpdet_read 1 extRes true lvl 2 = (2, .ok ARIZONA_HPDET_MAX)) := by
  refine ⟨hpdet_read_range_le, ?_, ?_, ?_, ?_⟩
  · intro ip extRes inputs
    have h := hpdet_oob_retries_le_aux ip extRes inputs 0
        (hpdet_range_count_pos ip)
    omega
  · intro extRes lvl
    constructor
    · intro h
      have := (hpdet_read_oob_step 1 extRes lvl 2 h).2
      simp [hpdet_range_count, arizona_hpdet_b_ranges] at this
    · intro h
      have := (hpdet_read_oob_step 2 extRes lvl 3 h).2
      simp [hpdet_range_count, arizona_hpdet_c_ranges] at this
  · intro extRes lvl hval
    simp [arizona_hpdet_read, arizona_hpdet_c_ranges, hval]
  · intro extRes lvl hoob
    have hthr : (arizona_hpdet_b_ranges.getD 2 ⟨0, 0, 0⟩).threshold = 169 := by
      decide
    have hc : ¬((2 : Nat) < arizona_hpdet_b_ranges.length - 1 ∧
        (lvl < (arizona_hpdet_b_ranges.getD 2 ⟨0, 0, 0⟩).threshold ∨
          ARIZONA_HPDET_B_RANGE_MAX ≤ lvl)) := by
      simp [arizona_hpdet_b_ranges]
    have hc2 : lvl < (arizona_hpdet_b_ranges.getD 2 ⟨0, 0, 0⟩).threshold ∨
        ARIZONA_HPDET_B_RANGE_MAX ≤ lvl := by
      rw [hthr]; exact hoob
    simp only [arizona_hpdet_read, if_neg hc, if_pos hc2]

/-- Witness for C4 (amended): at the last ip = 2 range a half-ohm
reading of 400 (200 ohms, below the 1000-ohm range minimum) is clamped
up to 1000 ohms and returned as final with the 7-ohm external resistor
subtracted. -/
theorem claim4_range_stepping_witness :
    arizona_hpdet_read 2 7 true 400 3 =
      (3, .ok (hpdet_ext_res_compensate 7 1000).1) :=
  claim4_range_stepping.2.2.2.1 7 400 (by decide)

/-- Claim C9: the external series-resistor compensation is subtracted
exactly when it is strictly below the measured value; otherwise the
driver logs an error and returns the measurement unsubtracted, so the
returned impedance is never negative. -/
theorem claim9_ext_res_compensation (extRes reading : Int)
    (hr : 0 ≤ reading) :
    (extRes ≠ 0 → extRes < reading →
      hpdet_ext_res_compensate extRes reading = (reading - extRes, false)) ∧
    (extRes ≠ 0 → reading ≤ extRes →
      hpdet_ext_res_compensate extRes reading = (reading, true)) ∧
    0 ≤ (hpdet_ext_res_compensate extRes reading).1 := by
  refine ⟨?_, ?_, ?_⟩
  · intro h1 h2
    simp [hpdet_ext_res_compensate, h1, not_le.mpr h2]
  · intro h1 h2
    simp [hpdet_ext_res_compensate, h1, h2]
  · unfold hpdet_ext_res_compensate
    split_ifs with h1 h2 <;> simp <;> omega

/-- Witness for C9: a 5-ohm configured resistor against a 32-ohm
measurement is subtracted, yielding 27 ohms without an error log. -/
theorem claim9_ext_res_compensation_witness :
    hpdet_ext_res_compensate 5 32 = (32 - 5, false) :=
  (claim9_ext_res_compensation 5 32 (by decide)).1
    (by decide) (by decide)

/-! ## Claim C3 -/

/-- Counterexample to C3 as stated: a sorted nine-entry table exceeds
`ARIZONA_MAX_MICD_RANGE`, yet the probe validation merely logs the
"Too many MICD ranges" error (first component `true`) and succeeds —
initialization does not fail with an error. -/
theorem claim3_counterexample :
    (arizona_extcon_probe_validate micd_nine_ranges).1 = true ∧
    (arizona_extcon_probe_validate micd_nine_ranges).2 = .ok () := by
  constructor
  · rfl
  · rfl

/-- Claim C3 (amended): a threshold table that is not monotonically
non-decreasing fails driver initialization with `-EINVAL`, and so does
a range maximum above every valid button level; but a table with too
many ranges only has an error logged — validation still succeeds for
any sorted, representable table regardless of its length. -/
theorem claim3_config_validation (rs : List MicdRange) :
    (micd_ranges_sorted_check rs = false →
      (arizona_extcon_probe_validate rs).2 = .error (-EINVAL)) ∧
    ((arizona_extcon_probe_validate rs).1 =
      decide (ARIZONA_MAX_MICD_RANGE < rs.length)) ∧
    (micd_ranges_sorted_check rs = true →
      rs.all (fun r =>
        micd_level_index r.max < ARIZONA_NUM_MICD_BUTTON_LEVELS) = true →
      rs ≠ [] →
      (arizona_extcon_probe_validate rs).2 = .ok ()) := by
  refine ⟨?_, ?_, ?_⟩
  · intro h
    have hne : rs.length ≠ 0 := by
      cases rs with
      | nil => simp [micd_ranges_sorted_check] at h
      | cons a t => simp
    simp [arizona_extcon_probe_validate, hne, h]
  · simp only [arizona_extcon_probe_validate]
    split_ifs <;> rfl
  · intro hs ha hne
    have hlen : rs.length ≠ 0 := by
      cases rs with
      | nil => simp at hne
      | cons a t => simp
    simp [arizona_extcon_probe_validate, hlen, hs, ha]

/-- Witness for C3 (amended): the default six-range table is sorted and
representable, and validation succeeds. -/
theorem claim3_config_validation_witness :
    (arizona_extcon_probe_validate micd_default_ranges).2 = .ok () :=
  (claim3_config_validation micd_default_ranges).2.2 (by decide) (by decide)
    (by decide)

/-! ## Claim C5 -/

/-- A `flip` outcome increments `jack_flips`, happens only strictly
below the `micd_num_modes * 10` bound, advances the mode index by one
modulo the mode count and leaves the `mic` flag alone. -/
theorem micd_mic_reading_flip_step (cfg : MicdConfigInfo)
    (st : MicDetectState) (val : Int)
    (h : (arizona_micd_mic_reading cfg st val).2 = .flip) :
    (arizona_micd_mic_reading cfg st val).1.jack_flips =
      st.jack_flips + 1 ∧
    st.jack_flips < cfg.micd_num_modes * 10 ∧
    (arizona_micd_mic_reading cfg st val).1.micd_mode =
      (st.micd_mode + 1) % cfg.micd_num_modes ∧
    (arizona_micd_mic_reading cfg st val).1.mic = st.mic := by
  simp only [arizona_micd_mic_reading] at h ⊢
  by_cases h0 : val < 0
  · rw [if_pos h0] at h
    simp at h
  · rw [if_neg h0] at h ⊢
    by_cases hsts : val.toNat &&& ARIZONA_MICD_STS = 0
    · rw [if_pos hsts] at h
      simp at h
    · rw [if_neg hsts] at h ⊢
      by_cases h8 : val.toNat &&& ARIZONA_MICD_LVL_8 ≠ 0
      · rw [if_pos h8] at h
        simp at h
      · rw [if_neg h8] at h ⊢
        by_cases h17 : val.toNat &&& MICD_LVL_1_TO_7 ≠ 0
        · rw [if_pos h17] at h ⊢
          by_cases hb : cfg.micd_num_modes * 10 ≤ st.jack_flips
          · rw [if_pos hb] at h
            simp at h
          · rw [if_neg hb] at h ⊢
            refine ⟨rfl, by omega, ?_, rfl⟩
            show arizona_extcon_set_mode cfg.micd_num_modes
              (if st.micd_mode + 1 = cfg.micd_num_modes then 0
                else st.micd_mode + 1) = _
            unfold arizona_extcon_set_mode
            by_cases hm : st.micd_mode + 1 = cfg.micd_num_modes
            · simp [hm, Nat.mod_self]
            · simp [hm]
        · rw [if_neg h17] at h
          simp at h

/-- An error outcome leaves the controller state untouched. -/
theorem micd_mic_reading_err_state (cfg : MicdConfigInfo)
    (st : MicDetectState) (val : Int) (e : Int)
    (h : (arizona_micd_mic_reading cfg st val).2 = .err e) :
    (arizona_micd_mic_reading cfg st val).1 = st := by
  simp only [arizona_micd_mic_reading] at h ⊢
  by_cases h0 : val < 0
  · rw [if_pos h0]
  · rw [if_neg h0] at h ⊢
    by_cases hsts : val.toNat &&& ARIZONA_MICD_STS = 0
    · rw [if_pos hsts] at h
      simp at h
    · rw [if_neg hsts] at h ⊢
      by_cases h8 : val.toNat &&& ARIZONA_MICD_LVL_8 ≠ 0
      · rw [if_pos h8] at h
        simp at h
      · rw [if_neg h8] at h ⊢
        by_cases h17 : val.toNat &&& MICD_LVL_1_TO_7 ≠ 0
        · rw [if_pos h17] at h ⊢
          by_cases hb : cfg.micd_num_modes * 10 ≤ st.jack_flips
          · rw [if_pos hb] at h
            simp at h
          · rw [if_neg hb] at h
            simp at h
        · rw [if_neg h17] at h
          simp at h

/-- Flips in a session are bounded by the headroom left under the
`micd_num_modes * 10` bound. -/
theorem micd_mic_flip_count_le_aux (cfg : MicdConfigInfo)
    (inputs : List Int) :
    ∀ st, micd_mic_flip_count cfg st inputs ≤
      cfg.micd_num_modes * 10 - st.jack_flips := by
  induction inputs with
  | nil => intro st; simp [micd_mic_flip_count]
  | cons v rest ih =>
      intro st
      cases hout : (arizona_micd_mic_reading cfg st v).2 with
      | flip =>
          obtain ⟨hf, hlt, _, _⟩ := micd_mic_reading_flip_step cfg st v hout
          simp only [micd_mic_flip_count, hout]
          have hrec := ih (arizona_micd_mic_reading cfg st v).1
          rw [hf] at hrec
          omega
      | err e =>
          have hst := micd_mic_reading_err_state cfg st v e hout
          simp only [micd_mic_flip_count, hout]
          rw [hst]
          exact ih st
      | done s => simp [micd_mic_flip_count, hout]

/-- Claim C5: an ambiguous low-but-nonzero reading during initial
classification flips the polarity — the mode index advances by one
modulo `micd_num_modes` and the flip counter increments — only while
the flip counter is below `micd_num_modes * 10`; once the bound is
reached the controller stops flipping and hands off to headphone
detection with the current polarity's classification, so a session
beginning at zero flips performs at most `micd_num_modes * 10` flips
in total. -/
theorem claim5_polarity_flip_retry :
    (∀ (cfg : MicdConfigInfo) (st : MicDetectState) (v : Nat),
      v &&& ARIZONA_MICD_STS ≠ 0 →
      v &&& ARIZONA_MICD_LVL_8 = 0 →
      v &&& MICD_LVL_1_TO_7 ≠ 0 →
      (st.jack_flips < cfg.micd_num_modes * 10 →
        arizona_micd_mic_reading cfg st (v : Int) =
          ({ st with
              micd_mode := (st.micd_mode + 1) % cfg.micd_num_modes
              jack_flips := st.jack_flips + 1 }, .flip)) ∧
      (cfg.micd_num_modes * 10 ≤ st.jack_flips →
        arizona_micd_mic_reading cfg st (v : Int) =
          (st, .done
            (if cfg.hpdet_channel then .hpdet_right else .hpdet_left)))) ∧
    (∀ (cfg : MicdConfigInfo) (st : MicDetectState) (inputs : List Int),
      st.jack_flips = 0 →
      micd_mic_flip_count cfg st inputs ≤ cfg.micd_num_modes * 10) := by
  constructor
  · intro cfg st v hsts hlvl8 hlvl17
    have hnn : ¬((v : Int) < 0) := by omega
    have htn : (v : Int).toNat = v := Int.toNat_natCast v
    constructor
    · intro hflips
      simp only [arizona_micd_mic_reading, htn]
      rw [if_neg hnn, if_neg hsts, if_neg (not_not_intro hlvl8),
        if_pos hlvl17, if_neg (by omega)]
      have hm : (if st.micd_mode + 1 = cfg.micd_num_modes then 0
          else st.micd_mode + 1) % cfg.micd_num_modes =
          (st.micd_mode + 1) % cfg.micd_num_modes := by
        by_cases hmm : st.micd_mode + 1 = cfg.micd_num_modes
        · simp [hmm, Nat.mod_self]
        · simp [hmm]
      simp [arizona_extcon_set_mode, hm]
    · intro hflips
      simp only [arizona_micd_mic_reading, htn]
      rw [if_neg hnn, if_neg hsts, if_neg (not_not_intro hlvl8),
        if_pos hlvl17, if_pos hflips]
  · intro cfg st inputs h0
    have := micd_mic_flip_count_le_aux cfg inputs st
    omega

/-- Witness for C5: with the two default modes, a fresh session and an
ambiguous level-1 reading, the controller flips: mode 0 becomes 1 and
the flip counter becomes 1. -/
theorem claim5_polarity_flip_retry_witness :
    arizona_micd_mic_reading ⟨2, false, false⟩ ⟨0, 0, false⟩
        ((10 : Nat) : Int) =
      ({ micd_mode := (0 + 1) % 2, jack_flips := 0 + 1, mic := false },
        .flip) :=
  ((claim5_polarity_flip_retry.1 ⟨2, false, false⟩ ⟨0, 0, false⟩ 10
    (by decide) (by decide) (by decide)).1 (by decide))

/-! ## Claims C6 and C7 -/

/-- Transitioning to no state always leaves no state active. -/
theorem jds_set_state_to_none (startRet : JdStateId → Int)
    (st : Option JdStateId) :
    (arizona_jds_set_state startRet st none).1 = none := by
  cases st with
  | none => simp [arizona_jds_set_state]
  | some s => simp [arizona_jds_set_state]

/-- The timeout re-arm emits at most the timeout-scheduling action. -/
theorem mem_start_timeout_actions {x : JdAction} {st : Option JdStateId}
    (h : x ∈ arizona_jds_start_timeout_actions st) :
    x = .startStateTimeout := by
  cases st with
  | none => simp [arizona_jds_start_timeout_actions] at h
  | some s =>
      by_cases ht : jd_has_timeout s
      · simp [arizona_jds_start_timeout_actions, ht] at h
        exact h
      · simp [arizona_jds_start_timeout_actions, ht] at h

/-- Every successful-read invocation of the handler leaves the masked
raw value in `last_jackdet`. -/
theorem jackdet_last_eq (p : JackdetPdata) (chip : ChipType)
    (startRet : JdStateId → Int) (info : ExtconInfo) (rawVal : Nat)
    (ch cs : Bool) :
    (arizona_jackdet p chip startRet info true rawVal ch cs).1.last_jackdet =
      rawVal &&& jackdet_mask p := by
  simp only [arizona_jackdet]
  by_cases h1 : rawVal &&& jackdet_mask p = info.last_jackdet
  · rw [if_pos h1]
    exact h1.symm
  · rw [if_neg h1]
    by_cases h2 : rawVal &&& jackdet_mask p = jackdet_present p
    · rw [if_pos h2]
      split <;> rfl
    · rw [if_neg h2]

/-- A masked value equal to `last_jackdet` suppresses the event: the
state is untouched and the handler only re-arms what it cancelled. -/
theorem jackdet_duplicate_eq (p : JackdetPdata) (chip : ChipType)
    (startRet : JdStateId → Int) (info : ExtconInfo) (rawVal : Nat)
    (ch cs : Bool)
    (h : rawVal &&& jackdet_mask p = info.last_jackdet) :
    arizona_jackdet p chip startRet info true rawVal ch cs =
      (info,
        (if ch = true then [JdAction.scheduleHpdetWork] else []) ++
        (if cs = true then
          arizona_jds_start_timeout_actions info.state else []) ++
        [JdAction.clearTrigSts]) := by
  simp only [arizona_jackdet]
  rw [if_pos h]

/-- Everything in a suppressed invocation's trace is a re-arm or the
trigger-status clear. -/
theorem mem_duplicate_trace {x : JdAction} {ch cs : Bool}
    {st : Option JdStateId}
    (h : x ∈ (if ch = true then [JdAction.scheduleHpdetWork] else []) ++
      (if cs = true then arizona_jds_start_timeout_actions st else []) ++
      [JdAction.clearTrigSts]) :
    x = .scheduleHpdetWork ∨ x = .startStateTimeout ∨ x = .clearTrigSts := by
  simp only [List.mem_append, List.mem_singleton] at h
  rcases h with (h | h) | h
  · cases ch with
    | false => simp at h
    | true =>
        simp at h
        exact Or.inl h
  · cases cs with
    | false => simp at h
    | true =>
        simp at h
        exact Or.inr (Or.inl (mem_start_timeout_actions h))
  · exact Or.inr (Or.inr h)

/-- Claim C6: a second consecutive presence read with the identical
masked bit pattern is suppressed entirely — the controller state is
untouched, no insertion or removal handling runs (no switch report, no
state stop/start), the accessory-identification work is re-armed
exactly when it was cancelled on entry, and a cancelled state timeout
is re-armed. -/
theorem claim6_duplicate_suppression (p : JackdetPdata) (chip : ChipType)
    (startRet : JdStateId → Int) (info : ExtconInfo) (rawVal : Nat)
    (ch1 cs1 ch2 cs2 : Bool) (info1 : ExtconInfo)
    (hfirst : info1 =
      (arizona_jackdet p chip startRet info true rawVal ch1 cs1).1)
    (hto : cs2 = true →
      arizona_jds_start_timeout_actions info1.state =
        [.startStateTimeout]) :
    (arizona_jackdet p chip startRet info1 true rawVal ch2 cs2).1 =
      info1 ∧
    (∀ n, JdAction.reportSwitch n ∉
      (arizona_jackdet p chip startRet info1 true rawVal ch2 cs2).2) ∧
    (∀ s, JdAction.startState s ∉
      (arizona_jackdet p chip startRet info1 true rawVal ch2 cs2).2) ∧
    (∀ s, JdAction.stopState s ∉
      (arizona_jackdet p chip startRet info1 true rawVal ch2 cs2).2) ∧
    (JdAction.scheduleHpdetWork ∈
      (arizona_jackdet p chip startRet info1 true rawVal ch2 cs2).2 ↔
      ch2 = true) ∧
    (cs2 = true → JdAction.startStateTimeout ∈
      (arizona_jackdet p chip startRet info1 true rawVal ch2 cs2).2) := by
  have hlast : rawVal &&& jackdet_mask p = info1.last_jackdet := by
    rw [hfirst, jackdet_last_eq]
  have hd := jackdet_duplicate_eq p chip startRet info1 rawVal ch2 cs2 hlast
  rw [hd]
  refine ⟨rfl, ?_, ?_, ?_, ?_, ?_⟩
  · intro n hmem
    rcases mem_duplicate_trace hmem with h | h | h <;>
      exact JdAction.noConfusion h
  · intro s hmem
    rcases mem_duplicate_trace hmem with h | h | h <;>
      exact JdAction.noConfusion h
  · intro s hmem
    rcases mem_duplicate_trace hmem with h | h | h <;>
      exact JdAction.noConfusion h
  · constructor
    · intro hmem
      cases ch2 with
      | true => rfl
      | false =>
          simp only [List.mem_append, List.mem_singleton] at hmem
          rcases hmem with (h | h) | h
          · simp at h
          · cases cs2 with
            | false => simp at h
            | true =>
                simp at h
                exact JdAction.noConfusion (mem_start_timeout_actions h)
          · exact JdAction.noConfusion h
    · intro hch
      subst hch
      simp
  · intro hcs
    subst hcs
    rw [hto rfl]
    simp

/-- Witness for C6: with default wiring and a fresh insertion committed
by a first read of raw value 1, a second read of the same value leaves
the state unchanged and re-arms the cancelled microphone timeout. -/
theorem claim6_duplicate_suppression_witness :
    (arizona_jackdet ⟨false, false, false, false, 0, false, false, 0⟩
        .WM5102 (fun _ => 0)
        (arizona_jackdet ⟨false, false, false, false, 0, false, false, 0⟩
          .WM5102 (fun _ => 0) ⟨0, 0, [0, 0, 0], false, false, 0, 0, none⟩
          true 1 false false).1
        true 1 true true).1 =
      (arizona_jackdet ⟨false, false, false, false, 0, false, false, 0⟩
        .WM5102 (fun _ => 0) ⟨0, 0, [0, 0, 0], false, false, 0, 0, none⟩
        true 1 false false).1 ∧
    JdAction.startStateTimeout ∈
      (arizona_jackdet ⟨false, false, false, false, 0, false, false, 0⟩
        .WM5102 (fun _ => 0)
        (arizona_jackdet ⟨false, false, false, false, 0, false, false, 0⟩
          .WM5102 (fun _ => 0) ⟨0, 0, [0, 0, 0], false, false, 0, 0, none⟩
          true 1 false false).1
        true 1 true true).2 := by
  have h := claim6_duplicate_suppression
    ⟨false, false, false, false, 0, false, false, 0⟩ .WM5102 (fun _ => 0)
    ⟨0, 0, [0, 0, 0], false, false, 0, 0, none⟩ 1 false false true true
    (arizona_jackdet ⟨false, false, false, false, 0, false, false, 0⟩
      .WM5102 (fun _ => 0) ⟨0, 0, [0, 0, 0], false, false, 0, 0, none⟩
      true 1 false false).1
    rfl (fun _ => by decide)
  exact ⟨h.1, h.2.2.2.2.2 rfl⟩

/-- Claim C7: a jack-removal event clears every per-session
accumulator — the accessory-identification reading count and stored
readings, the mic flag, the retried flag and the stored headphone
impedance — leaves no detection state active, reports the no-accessory
classification, releases the configured buttons, and on chips with
headphone tuning resets the tuning with the open-circuit sentinel. -/
theorem claim7_removal_clears (p : JackdetPdata) (chip : ChipType)
    (startRet : JdStateId → Int) (info : ExtconInfo) (rawVal : Nat)
    (ch cs : Bool)
    (hdup : rawVal &&& jackdet_mask p ≠ info.last_jackdet)
    (hrem : rawVal &&& jackdet_mask p ≠ jackdet_present p) :
    (arizona_jackdet p chip startRet info true rawVal ch cs).1.num_hpdet_res
      = 0 ∧
    (arizona_jackdet p chip startRet info true rawVal ch cs).1.hpdet_res =
      [0, 0, 0] ∧
    (arizona_jackdet p chip startRet info true rawVal ch cs).1.mic =
      false ∧
    (arizona_jackdet p chip startRet info true rawVal ch cs).1.hpdet_retried
      = false ∧
    (arizona_jackdet p chip startRet info true rawVal ch cs).1.hp_impedance
      = 0 ∧
    (arizona_jackdet p chip startRet info true rawVal ch cs).1.state =
      none ∧
    JdAction.reportSwitch BIT_NO_HEADSET ∈
      (arizona_jackdet p chip startRet info true rawVal ch cs).2 ∧
    JdAction.releaseAllKeys ∈
      (arizona_jackdet p chip startRet info true rawVal ch cs).2 ∧
    ((chip = .WM5110 ∨ chip = .WM1814) →
      JdAction.tuneHeadphone ARIZONA_HP_Z_OPEN ∈
        (arizona_jackdet p chip startRet info true rawVal ch cs).2) := by
  simp only [arizona_jackdet]
  rw [if_neg hdup, if_neg hrem]
  refine ⟨rfl, rfl, rfl, rfl, rfl, ?_, ?_, ?_, ?_⟩
  · simp [jds_set_state_to_none]
  · simp
  · simp
  · intro hchip
    rcases hchip with h | h <;> subst h <;> simp

/-! ## Claim C10 -/

/-- Replaying concatenated event lists composes. -/
theorem apply_key_events_append (l1 l2 : List KeyEvent) :
    ∀ p, apply_key_events p (l1 ++ l2) =
      apply_key_events (apply_key_events p l1) l2 := by
  induction l1 with
  | nil => intro p; rfl
  | cons e rest ih =>
      intro p
      cases e with
      | report k b =>
          simp only [List.cons_append, apply_key_events]
          exact ih _
      | sync =>
          simp only [List.cons_append, apply_key_events]
          exact ih _

/-- Replaying the release of every configured key clears exactly the
configured keys. -/
theorem apply_key_events_releases (ranges : List MicdRange) :
    ∀ (p : Nat → Bool) (k : Nat),
      apply_key_events p (ranges.map fun r => KeyEvent.report r.key false)
          k =
        if k ∈ ranges.map MicdRange.key then false else p k := by
  induction ranges with
  | nil => intro p k; simp [apply_key_events]
  | cons a t ih =>
      intro p k
      simp only [List.map_cons, apply_key_events]
      rw [ih]
      by_cases h1 : k ∈ t.map MicdRange.key
      · simp [h1]
      · by_cases h2 : k = a.key
        · simp [h1, h2]
        · simp [h1, h2]

/-- Claim C10: every non-error button evaluation first reports every
configured key released (the leading events of its trace are exactly
those releases) before asserting at most one key, so after replaying
the trace over any prior pressed state at most one configured key is
pressed; and a button-release reading (no level bit in 0..7) leaves
every configured key released. -/
theorem claim10_button_single_press (ranges : List MicdRange) (val : Int)
    (hval : 0 ≤ val) (p : Nat → Bool) :
    ((arizona_micd_button_reading ranges val).2.take ranges.length =
      ranges.map fun r => KeyEvent.report r.key false) ∧
    (∀ r1 ∈ ranges, ∀ r2 ∈ ranges,
      apply_key_events p (arizona_micd_button_reading ranges val).2
          r1.key = true →
      apply_key_events p (arizona_micd_button_reading ranges val).2
          r2.key = true →
      r1.key = r2.key) ∧
    (val.toNat &&& MICD_LVL_0_TO_7 = 0 →
      ∀ r ∈ ranges,
        apply_key_events p (arizona_micd_button_reading ranges val).2
          r.key = false) := by
  have h0 : ¬val < 0 := not_lt.mpr hval
  have hlen : ranges.length =
      (ranges.map fun r => KeyEvent.report r.key false).length := by simp
  simp only [arizona_micd_button_reading]
  rw [if_neg h0]
  by_cases hb : val.toNat &&& MICD_LVL_0_TO_7 ≠ 0
  · rw [if_pos hb]
    by_cases hp : (val.toNat &&& ARIZONA_MICD_LVL_MASK) >>>
        ARIZONA_MICD_LVL_SHIFT ≠ 0 ∧
        ffs ((val.toNat &&& ARIZONA_MICD_LVL_MASK) >>>
          ARIZONA_MICD_LVL_SHIFT) - 1 < ranges.length
    · rw [if_pos hp]
      have hfinal : ∀ k,
          apply_key_events p
            ((ranges.map fun r => KeyEvent.report r.key false) ++
              [.report (ranges.getD
                (ffs ((val.toNat &&& ARIZONA_MICD_LVL_MASK) >>>
                  ARIZONA_MICD_LVL_SHIFT) - 1) ⟨0, 0⟩).key true,
               .sync]) k =
          if k = (ranges.getD
              (ffs ((val.toNat &&& ARIZONA_MICD_LVL_MASK) >>>
                ARIZONA_MICD_LVL_SHIFT) - 1) ⟨0, 0⟩).key then true
          else if k ∈ ranges.map MicdRange.key then false else p k := by
        intro k
        rw [apply_key_events_append]
        simp only [apply_key_events]
        by_cases hk : k = (ranges.getD
            (ffs ((val.toNat &&& ARIZONA_MICD_LVL_MASK) >>>
              ARIZONA_MICD_LVL_SHIFT) - 1) ⟨0, 0⟩).key
        · simp [hk]
        · rw [if_neg hk, if_neg hk, apply_key_events_releases]
      refine ⟨?_, ?_, ?_⟩
      · rw [hlen, List.take_left]
      · intro r1 h1 r2 h2 hp1 hp2
        rw [hfinal] at hp1 hp2
        by_cases e1 : r1.key = (ranges.getD
            (ffs ((val.toNat &&& ARIZONA_MICD_LVL_MASK) >>>
              ARIZONA_MICD_LVL_SHIFT) - 1) ⟨0, 0⟩).key
        · by_cases e2 : r2.key = (ranges.getD
              (ffs ((val.toNat &&& ARIZONA_MICD_LVL_MASK) >>>
                ARIZONA_MICD_LVL_SHIFT) - 1) ⟨0, 0⟩).key
          · rw [e1, e2]
          · rw [if_neg e2,
              if_pos (List.mem_map_of_mem MicdRange.key h2)] at hp2
            simp at hp2
        · rw [if_neg e1,
            if_pos (List.mem_map_of_mem MicdRange.key h1)] at hp1
          simp at hp1
      · intro hz
        exact absurd hz hb
    · rw [if_neg hp]
      refine ⟨?_, ?_, ?_⟩
      · rw [hlen, List.take_length]
      · intro r1 h1 r2 h2 hp1 hp2
        rw [apply_key_events_releases,
          if_pos (List.mem_map_of_mem MicdRange.key h1)] at hp1
        simp at hp1
      · intro hz
        exact absurd hz hb
  · rw [if_neg hb]
    refine ⟨?_, ?_, ?_⟩
    · rw [hlen, List.take_left]
    · intro r1 h1 r2 h2 hp1 hp2
      rw [apply_key_events_append] at hp1
      simp only [apply_key_events] at hp1
      rw [apply_key_events_releases,
        if_pos (List.mem_map_of_mem MicdRange.key h1)] at hp1
      simp at hp1
    · intro _ r hr
      rw [apply_key_events_append]
      simp only [apply_key_events]
      rw [apply_key_events_releases,
        if_pos (List.mem_map_of_mem MicdRange.key hr)]

/-- Witness for C10: a level-0 reading over the default table first
releases all six configured buttons. -/
theorem claim10_button_single_press_witness :
    (arizona_micd_button_reading micd_default_ranges 6).2.take
        micd_default_ranges.length =
      micd_default_ranges.map fun r => KeyEvent.report r.key false :=
  (claim10_button_single_press micd_default_ranges 6 (by decide)
    (fun _ => false)).1

/-! ## Claim C8 -/

theorem micd_levels64_length : micd_levels64.length = 64 := by decide

theorem micd_levels64_sorted : List.Sorted (· ≤ ·) micd_levels64 := by decide

/-- A predicate found by `findIdx` within bounds holds at the found
defaulted entry. -/
theorem findIdx_getD_of_lt {l : List Nat} {p : Nat → Bool} {d : Nat}
    (h : l.findIdx p < l.length) : p (l.getD (l.findIdx p) d) = true := by
  rw [List.getD_eq_getElem?_getD, List.getElem?_eq_getElem h]
  simpa using @List.findIdx_getElem _ _ _ h

/-- A level index found below 64 indexes a level at or above the
requested maximum (the probe's break condition). -/
theorem micd_level_index_found {m : Nat} (h : micd_level_index m < 64) :
    m ≤ micd_levels64.getD (micd_level_index m) 0 := by
  have hlt : micd_levels64.findIdx (fun l => decide (m ≤ l)) <
      micd_levels64.length := by
    rw [micd_levels64_length]
    exact h
  have hp := findIdx_getD_of_lt (d := 0) hlt
  simp only [decide_eq_true_eq] at hp
  exact hp

/-- The level search is monotone in the requested maximum. -/
theorem micd_level_index_mono {m1 m2 : Nat} (h : m1 ≤ m2) :
    micd_level_index m1 ≤ micd_level_index m2 := by
  unfold micd_level_index
  apply List.findIdx_le_findIdx
  intro x _ hx
  simp only [decide_eq_true_eq] at hx ⊢
  omega

/-- For a maximum that is itself a table level, the search lands
exactly on it. -/
theorem micd_level_index_mem {m : Nat} (hm : m ∈ micd_levels64) :
    micd_level_index m < 64 ∧
      micd_levels64.getD (micd_level_index m) 0 = m := by
  have hlt : micd_levels64.findIdx (fun l => decide (m ≤ l)) <
      micd_levels64.length :=
    List.findIdx_lt_length_of_exists ⟨m, hm, by simp⟩
  have hlt64 : micd_level_index m < 64 := by
    rw [← micd_levels64_length]
    exact hlt
  refine ⟨hlt64, ?_⟩
  obtain ⟨j, hj, hjm⟩ := List.getElem_of_mem hm
  have hidxj : micd_level_index m ≤ j := by
    by_contra hcj
    push_neg at hcj
    have hfalse := @List.not_of_lt_findIdx _ (fun l => decide (m ≤ l))
      micd_levels64 _ hcj
    rw [hjm] at hfalse
    simp at hfalse
  have hfound := micd_level_index_found hlt64
  have hlt2 : micd_level_index m < micd_levels64.length := by
    rw [micd_levels64_length]
    exact hlt64
  have hle2 : micd_levels64.get ⟨micd_level_index m, hlt2⟩ ≤
      micd_levels64.get ⟨j, hj⟩ :=
    micd_levels64_sorted.rel_get_of_le hidxj
  rw [List.getD_eq_getElem?_getD, List.getElem?_eq_getElem hlt2] at hfound ⊢
  simp only [Option.getD_some] at hfound ⊢
  simp only [List.get_eq_getElem] at hle2
  omega

theorem micd_button_thresholds_length (rs : List MicdRange)
    (hle : rs.length ≤ 8) : (micd_button_thresholds rs).length = 8 := by
  simp only [micd_button_thresholds, List.length_append, List.length_map,
    List.length_replicate, ARIZONA_MAX_MICD_RANGE]
  omega

/-- A configured slot holds the probe-programmed level for its range. -/
theorem micd_button_thresholds_getD_configured (rs : List MicdRange)
    (i : Nat) (hi : i < rs.length) :
    (micd_button_thresholds rs).getD i 0 =
      micd_levels64.getD (micd_level_index ((rs.get ⟨i, hi⟩).max)) 0 := by
  have hmi : i < (rs.map fun r =>
      micd_levels64.getD (micd_level_index r.max) 0).length := by
    simpa using hi
  unfold micd_button_thresholds
  rw [List.getD_eq_getElem?_getD, List.getElem?_append_left hmi,
    List.getElem?_map, List.getElem?_eq_getElem hi]
  simp [List.get_eq_getElem]

/-- An unconfigured slot holds the 0x3f level (1257 ohms). -/
theorem micd_button_thresholds_getD_padding (rs : List MicdRange)
    (i : Nat) (h1 : rs.length ≤ i) (h2 : i < 8) :
    (micd_button_thresholds rs).getD i 0 = 1257 := by
  have hmi : (rs.map fun r =>
      micd_levels64.getD (micd_level_index r.max) 0).length ≤ i := by
    simpa using h1
  unfold micd_button_thresholds
  rw [List.getD_eq_getElem?_getD, List.getElem?_append_right hmi]
  simp only [List.length_map]
  rw [List.getElem?_replicate_of_lt (by
    simp only [ARIZONA_MAX_MICD_RANGE]
    omega)]
  simp only [Option.getD_some]
  decide

/-- A sorted table's maxima are bounded by the last entry's maximum. -/
theorem micd_ranges_le_getLastD :
    ∀ (rs : List MicdRange), micd_ranges_sorted_check rs = true →
      ∀ r ∈ rs, r.max ≤ (rs.getLastD ⟨0, 0⟩).max := by
  intro rs
  induction rs with
  | nil =>
      intro _ r hr
      simp at hr
  | cons a t ih =>
      intro hs r hr
      cases t with
      | nil =>
          simp at hr
          subst hr
          simp [List.getLastD_cons]
      | cons b t2 =>
          simp only [micd_ranges_sorted_check, Bool.and_eq_true,
            decide_eq_true_eq] at hs
          obtain ⟨hab, hrest⟩ := hs
          have hlast_eq : ((a :: b :: t2).getLastD ⟨0, 0⟩) =
              ((b :: t2).getLastD ⟨0, 0⟩) := by
            rw [List.getLastD_cons, List.getLastD_cons, List.getLastD_cons]
          rw [hlast_eq]
          rcases List.mem_cons.mp hr with rfl | hr2
          · calc r.max ≤ b.max := hab
              _ ≤ ((b :: t2).getLastD ⟨0, 0⟩).max :=
                ih hrest b (List.mem_cons_self b t2)
          · exact ih hrest r hr2

/-- The comparator slot never exceeds 8. -/
theorem micd_hw_slot_le (rs : List MicdRange) (hle : rs.length ≤ 8)
    (z : Nat) : micd_hw_slot rs z ≤ 8 := by
  unfold micd_hw_slot
  have h := @List.findIdx_le_length _ (fun t => decide (z ≤ t))
    (micd_button_thresholds rs)
  rw [micd_button_thresholds_length rs hle] at h
  exact h

/-- An impedance above the highest configured maximum falls past every
configured slot. -/
theorem micd_hw_slot_ge_of_gt_last (rs : List MicdRange) (z : Nat)
    (hsort : micd_ranges_sorted_check rs = true)
    (hle : rs.length ≤ 8)
    (hlast : (rs.getLastD ⟨0, 0⟩).max ∈ micd_levels64)
    (hz : (rs.getLastD ⟨0, 0⟩).max < z) :
    rs.length ≤ micd_hw_slot rs z := by
  obtain ⟨hJlt, hJeq⟩ := micd_level_index_mem hlast
  by_contra hc
  push_neg at hc
  unfold micd_hw_slot at hc
  have hlen8 := micd_button_thresholds_length rs hle
  have hlt : (micd_button_thresholds rs).findIdx (fun t => decide (z ≤ t)) <
      (micd_button_thresholds rs).length := by
    omega
  have hp := findIdx_getD_of_lt (d := 0) hlt
  simp only [decide_eq_true_eq] at hp
  rw [micd_button_thresholds_getD_configured rs _ hc] at hp
  simp only [List.get_eq_getElem] at hp
  have hmem_i :
      rs[(micd_button_thresholds rs).findIdx (fun t => decide (z ≤ t))]
      ∈ rs := List.getElem_mem hc
  have hle_last := micd_ranges_le_getLastD rs hsort _ hmem_i
  have hidx_le := micd_level_index_mono hle_last
  have hidx1 : micd_level_index
      (rs[(micd_button_thresholds rs).findIdx
        (fun t => decide (z ≤ t))].max) < micd_levels64.length := by
    rw [micd_levels64_length]
    omega
  have hidx2 : micd_level_index ((rs.getLastD ⟨0, 0⟩).max) <
      micd_levels64.length := by
    rw [micd_levels64_length]
    exact hJlt
  have hmono : micd_levels64.get ⟨_, hidx1⟩ ≤ micd_levels64.get ⟨_, hidx2⟩ :=
    micd_levels64_sorted.rel_get_of_le hidx_le
  rw [List.getD_eq_getElem?_getD, List.getElem?_eq_getElem hidx1,
    Option.getD_some] at hp
  rw [List.getD_eq_getElem?_getD, List.getElem?_eq_getElem hidx2,
    Option.getD_some] at hJeq
  simp only [List.get_eq_getElem] at hmono
  omega

/-- Decoding of the comparator word for a slot in the button range. -/
theorem micd_hw_word_decode {s : Nat} (h : s ≤ 7) :
    ((ARIZONA_MICD_STS ||| ((1 <<< s) <<< ARIZONA_MICD_LVL_SHIFT)) &&&
        ARIZONA_MICD_LVL_MASK) >>> ARIZONA_MICD_LVL_SHIFT = 1 <<< s ∧
    (ARIZONA_MICD_STS ||| ((1 <<< s) <<< ARIZONA_MICD_LVL_SHIFT)) &&&
        MICD_LVL_0_TO_7 ≠ 0 ∧
    ffs (1 <<< s) = s + 1 ∧
    (1 <<< s) ≠ 0 := by
  interval_cases s <;>
    exact ⟨by decide, by decide, by decide, by decide⟩

/-- No press event hides among the release reports. -/
theorem report_true_not_mem_releases {k : Nat} {rs : List MicdRange} :
    KeyEvent.report k true ∉ rs.map fun r => KeyEvent.report r.key false := by
  intro h
  simp [List.mem_map] at h

/-- Claim C8: with the comparator modelled from the spec over the
probe-programmed thresholds, a sorted table of at most eight ranges
whose last maximum is a table level maps an impedance below the first
range's maximum to a press of the first configured key (after releasing
all keys), and an impedance above the last range's maximum to no key
press at all. -/
theorem claim8_button_thresholds (rs : List MicdRange) (z : Nat)
    (hsort : micd_ranges_sorted_check rs = true)
    (hne : rs ≠ [])
    (hle : rs.length ≤ ARIZONA_MAX_MICD_RANGE)
    (hlast : (rs.getLastD ⟨0, 0⟩).max ∈ micd_levels64) :
    (z < (rs.headD ⟨0, 0⟩).max →
      arizona_micd_button_reading rs ((micd_hw_reading rs z : Nat) : Int) =
        (0, (rs.map fun r => KeyEvent.report r.key false) ++
          [.report (rs.headD ⟨0, 0⟩).key true, .sync])) ∧
    ((rs.getLastD ⟨0, 0⟩).max < z →
      ∀ k, KeyEvent.report k true ∉
        (arizona_micd_button_reading rs
          ((micd_hw_reading rs z : Nat) : Int)).2) := by
  have hle8 : rs.length ≤ 8 := hle
  obtain ⟨hJlt, hJeq⟩ := micd_level_index_mem hlast
  constructor
  · intro hz
    obtain ⟨r0, t, rfl⟩ := List.exists_cons_of_ne_nil hne
    simp only [List.headD_cons] at hz ⊢
    have h0le : r0.max ≤ ((r0 :: t).getLastD ⟨0, 0⟩).max :=
      micd_ranges_le_getLastD _ hsort r0 (List.mem_cons_self r0 t)
    have hidx0 : micd_level_index r0.max < 64 :=
      lt_of_le_of_lt (micd_level_index_mono h0le) hJlt
    have hthr0 : r0.max ≤ micd_levels64.getD (micd_level_index r0.max) 0 :=
      micd_level_index_found hidx0
    have hslot : micd_hw_slot (r0 :: t) z = 0 := by
      unfold micd_hw_slot micd_button_thresholds
      simp only [List.map_cons, List.cons_append, List.findIdx_cons]
      have hc : z ≤ micd_levels64.getD (micd_level_index r0.max) 0 := by
        omega
      simp only [List.getD_eq_getElem?_getD] at hc
      simp [hc]
    have hv : micd_hw_reading (r0 :: t) z = 6 := by
      unfold micd_hw_reading
      rw [hslot]
      decide
    rw [hv]
    have hf : ffs (((6 : Nat) &&& ARIZONA_MICD_LVL_MASK) >>>
        ARIZONA_MICD_LVL_SHIFT) - 1 = 0 := by decide
    simp only [arizona_micd_button_reading, Int.toNat_natCast]
    rw [if_neg (by omega : ¬((6 : Nat) : Int) < 0),
      if_pos (by decide : (6 : Nat) &&& MICD_LVL_0_TO_7 ≠ 0), hf,
      if_pos ⟨by decide, by simp⟩]
    simp
  · intro hz k hmem
    have hsle : micd_hw_slot rs z ≤ 8 := micd_hw_slot_le rs hle8 z
    have hsge : rs.length ≤ micd_hw_slot rs z :=
      micd_hw_slot_ge_of_gt_last rs z hsort hle8 hlast hz
    have hn1 : 1 ≤ rs.length := by
      cases rs with
      | nil => exact absurd rfl hne
      | cons a t => simp
    have hv : micd_hw_reading rs z = ARIZONA_MICD_STS |||
        ((1 <<< micd_hw_slot rs z) <<< ARIZONA_MICD_LVL_SHIFT) := rfl
    by_cases h8 : micd_hw_slot rs z = 8
    · rw [hv, h8] at hmem
      simp only [arizona_micd_button_reading, Int.toNat_natCast] at hmem
      rw [if_neg (by omega :
          ¬((ARIZONA_MICD_STS |||
            ((1 <<< 8) <<< ARIZONA_MICD_LVL_SHIFT) : Nat) : Int) < 0),
        if_neg (by decide :
          ¬(ARIZONA_MICD_STS ||| ((1 <<< 8) <<< ARIZONA_MICD_LVL_SHIFT)) &&&
            MICD_LVL_0_TO_7 ≠ 0)] at hmem
      simp only [List.mem_append, List.mem_singleton] at hmem
      rcases hmem with hmem | hmem
      · exact report_true_not_mem_releases hmem
      · exact KeyEvent.noConfusion hmem
    · have hs7 : micd_hw_slot rs z ≤ 7 := by omega
      obtain ⟨hd1, hd2, hd3, hd4⟩ := micd_hw_word_decode hs7
      rw [hv] at hmem
      simp only [arizona_micd_button_reading, Int.toNat_natCast] at hmem
      rw [if_neg (by omega :
          ¬((ARIZONA_MICD_STS ||| ((1 <<< micd_hw_slot rs z) <<<
            ARIZONA_MICD_LVL_SHIFT) : Nat) : Int) < 0),
        if_pos hd2, hd1, hd3] at hmem
      rw [if_neg (by
        intro hcon
        have := hcon.2
        omega)] at hmem
      exact report_true_not_mem_releases hmem

/-- Witness for C8: over the default table, a 5-ohm impedance (below
the lowest 11-ohm maximum) presses BTN_0 after releasing every key. -/
theorem claim8_button_thresholds_witness :
    arizona_micd_button_reading micd_default_ranges
        ((micd_hw_reading micd_default_ranges 5 : Nat) : Int) =
      (0, (micd_default_ranges.map fun r => KeyEvent.report r.key false) ++
        [.report (micd_default_ranges.headD ⟨0, 0⟩).key true, .sync]) :=
  (claim8_button_thresholds micd_default_ranges 5 (by decide) (by decide)
    (by decide) (by decide)).1 (by decide)

/-- Witness for C7: with default wiring, removing the jack from a
session that had accumulated readings, a mic, a retry and an impedance
leaves no active state and reports no accessory. -/
theorem claim7_removal_clears_witness :
    (arizona_jackdet ⟨false, false, false, false, 0, false, false, 0⟩
        .WM5110 (fun _ => 0)
        ⟨1, 2, [5, 6, 7], true, true, 3, 42, some .micd_button⟩
        true 0 false false).1.state = none ∧
    JdAction.reportSwitch BIT_NO_HEADSET ∈
      (arizona_jackdet ⟨false, false, false, false, 0, false, false, 0⟩
        .WM5110 (fun _ => 0)
        ⟨1, 2, [5, 6, 7], true, true, 3, 42, some .micd_button⟩
        true 0 false false).2 := by
  have h := claim7_removal_clears
    ⟨false, false, false, false, 0, false, false, 0⟩ .WM5110 (fun _ => 0)
    ⟨1, 2, [5, 6, 7], true, true, 3, 42, some .micd_button⟩ 0 false false
    (by decide) (by decide)
  exact ⟨h.2.2.2.2.2.1, h.2.2.2.2.2.2.1⟩

end Arizona
